import Mathlib

/-!
Verification of the grouping module (`gaphor/diagram/grouping.py`) and of the
double-dispatch registry it is built on.

The strategies (`AbstractGroup`, `NoGrouping`) and the module-level
registrations (`Group = multidispatch(object, object)(NoGrouping)` followed by
`Group.register(None, object)(NoGrouping)`) are embedded from the source file.
The dispatch registry itself lives in the external `generic.multidispatch`
library, whose code is not part of the source tree; its data model and the
`register`/`resolve` operations are modelled from the specification
(type specifiers with exact / capability / ancestor / wildcard matching,
specificity scoring with most-recent tie-break, last-write-wins
re-registration).
-/

namespace Grouping

/-- Identifier of a runtime type of the host object model. -/
abbrev TyId := Nat

/-- Identifier of a capability (interface) of the host object model. -/
abbrev CapId := Nat

/-- Modelled from the spec: the runtime type information the registry consumes
from the host object model, absent from the source tree.  An explicit
ancestor lookup (all proper ancestor types of a type) and a capability lookup
(all capabilities a type satisfies). -/
structure TypeTable where
  ancestors : TyId → List TyId
  caps : TyId → List CapId

/-- A concrete runtime value: its concrete type and an identity used by the
relationship state. -/
structure Value where
  ty : TyId
  vid : Nat
deriving DecidableEq

/-- Modelled from the spec: a type specifier, the registration key of the
registry (absent from the source tree): a concrete type, a capability, or the
wildcard for an unknown/absent value (the Python `None` specifier; the Python
`object` specifier is the root type `tyObject`). -/
inductive Specifier where
  | ty (t : TyId)
  | cap (c : CapId)
  | unknown
deriving DecidableEq

/-- Modelled from the spec: a registration, an immutable triple of
container specifier, contained specifier, and handler-factory. -/
structure Registration (F : Type) where
  contSpec : Specifier
  itemSpec : Specifier
  factory : F

/-- The registry state: registrations in insertion order (later = more
recent). -/
abbrev Registry (F : Type) := List (Registration F)

/-- Modelled from the spec: per-side satisfaction and specificity score of the
registry's lookup (absent from the source tree).  An exact type match scores
3, a capability match 2, an ancestor type match 1; the wildcard matches an
absent value, and any present value as a last resort, at score 0.  `none`
means the side is not satisfied. -/
def specScore (tt : TypeTable) (s : Specifier) (v : Option Value) : Option Nat :=
  match v, s with
  | none, .unknown => some 0
  | none, .ty _ => none
  | none, .cap _ => none
  | some w, .ty t => if w.ty = t then some 3
      else if t ∈ tt.ancestors w.ty then some 1 else none
  | some w, .cap c => if c ∈ tt.caps w.ty then some 2 else none
  | some _, .unknown => some 0

/-- Modelled from the spec: combined specificity of a registration for a
runtime pair, the sum of the per-side scores; `none` if either side is not
satisfied. -/
def regScore {F : Type} (tt : TypeTable) (reg : Registration F)
    (pc it : Option Value) : Option Nat :=
  match specScore tt reg.contSpec pc, specScore tt reg.itemSpec it with
  | some a, some b => some (a + b)
  | _, _ => none

/-- Modelled from the spec: one step of the lookup.  A registration that does
not satisfy the pair leaves the best candidate unchanged; a satisfying one
replaces it when its score is at least as high (so ties go to the more recent
registration). -/
def dispatchStep {F : Type} (tt : TypeTable) (pc it : Option Value)
    (acc : Option (F × Nat)) (reg : Registration F) : Option (F × Nat) :=
  match regScore tt reg pc it, acc with
  | none, a => a
  | some s, none => some (reg.factory, s)
  | some s, some fs => if fs.2 ≤ s then some (reg.factory, s) else some fs

/-- Modelled from the spec: the lookup walks the registrations in insertion
order keeping the best candidate so far. -/
def resolveAux {F : Type} (tt : TypeTable) (pc it : Option Value) :
    Registry F → Option (F × Nat) → Option (F × Nat)
  | [], acc => acc
  | reg :: rest, acc => resolveAux tt pc it rest (dispatchStep tt pc it acc reg)

/-- Modelled from the spec: `resolve(containerValue, containedValueOrAbsent)`
of the registry (absent from the source tree): the factory of the most
specific satisfying registration, ties broken by most recent registration;
`none` is the NoHandlerFound failure. -/
def resolve {F : Type} (tt : TypeTable) (regs : Registry F)
    (pc it : Option Value) : Option F :=
  (resolveAux tt pc it regs none).map Prod.fst

/-- Whether a registration carries exactly this specifier pair. -/
def samePair {F : Type} (cs isp : Specifier) (reg : Registration F) : Bool :=
  decide (reg.contSpec = cs ∧ reg.itemSpec = isp)

/-- Modelled from the spec: `register(containerSpec, containedSpec, factory)`
of the registry (absent from the source tree): re-registering the exact same
specifier pair replaces the previous factory (last write wins, the replacement
counting as most recent); otherwise the registration is appended. -/
def register {F : Type} (regs : Registry F) (cs isp : Specifier) (f : F) :
    Registry F :=
  regs.filter (fun reg => !(samePair cs isp reg)) ++ [⟨cs, isp, f⟩]

/-- The registry seen as mutable shared state: `register` as a state
transformer. -/
def registerS {F : Type} (st : Registry F) (cs isp : Specifier) (f : F) :
    Unit × Registry F :=
  ((), register st cs isp f)

/-- The registry seen as mutable shared state: `resolve` as a state
transformer; it only reads the registrations. -/
def resolveS {F : Type} (tt : TypeTable) (st : Registry F)
    (pc it : Option Value) : Option F × Registry F :=
  (resolve tt st pc it, st)

/-- The relationship state the strategies act on: which container (by
identity) each contained item (by identity) is currently grouped under. -/
abbrev RelState := Nat → Option Nat

/-- From `AbstractGroup`: a grouping strategy bound to a (parent, item) pair,
exposing the three protocol operations.  `group` and `ungroup` act on the
relationship state. -/
structure AbstractGroup where
  can_contain : Bool
  group : RelState → RelState
  ungroup : RelState → RelState

/-- A handler-factory: given the concrete (parent, item or absent) pair,
produces a strategy bound to them. -/
abbrev Factory := Option Value → Option Value → AbstractGroup

/-- From `AbstractGroup`: a subclass that supplies `group`/`ungroup` but does
not override `can_contain` inherits the base-class default, which answers
`true`. -/
def mkAbstractGroup (g u : RelState → RelState) (parent item : Option Value) :
    AbstractGroup :=
  { can_contain := true, group := g, ungroup := u }

/-- From `NoGrouping`: `can_contain` returns `False`; `group` and `ungroup`
are `pass`. -/
def NoGrouping (parent item : Option Value) : AbstractGroup :=
  { can_contain := false, group := id, ungroup := id }

/-- The Python `object` specifier names the root type of the host model. -/
def tyObject : TyId := 0

/-- The baseline wildcard/wildcard registration installed at module load by
`multidispatch(object, object)(NoGrouping)`; the spec describes it as the
wildcard-only registration. -/
def baseline : Registration Factory := ⟨.unknown, .unknown, NoGrouping⟩

/-- The explicit registration `Group.register(None, object)(NoGrouping)`:
wildcard parent, root-type item. -/
def noneParentReg : Registration Factory := ⟨.unknown, .ty tyObject, NoGrouping⟩

/-- From the module-level code: the `Group` dispatcher's registry after the
module loads — the baseline from `multidispatch(object, object)(NoGrouping)`
followed by `Group.register(None, object)(NoGrouping)`. -/
def Group : Registry Factory :=
  register (register [] .unknown .unknown NoGrouping) .unknown (.ty tyObject)
    NoGrouping

/-- Modelled from the spec: a concrete grouping strategy of the kind the host
application registers (the `AbstractGroup` subclasses outside this module):
`group()` establishes the containment relationship by recording the container
as the item's parent, `ungroup()` reverses it. -/
def LinkGroup (parent item : Value) : AbstractGroup where
  can_contain := true
  group := fun st k => if k = item.vid then some parent.vid else st k
  ungroup := fun st k => if k = item.vid then none else st k

/-- A small concrete type table for instantiations: type 1 extends type 0
(the root), type 2 extends type 1 and type 0; no capabilities. -/
def ttEx : TypeTable where
  ancestors := fun t => if t = 1 then [0] else if t = 2 then [1, 0] else []
  caps := fun _ => []

/-! Shared lemmas about the lookup. -/

/-- The wildcard specifier is satisfied by every value, present or absent, at
score 0. -/
theorem specScore_unknown (tt : TypeTable) (v : Option Value) :
    specScore tt .unknown v = some 0 := by
  cases v <;> rfl

/-- The lookup over an appended list processes the first part first. -/
theorem resolveAux_append {F : Type} (tt : TypeTable) (pc it : Option Value)
    (l1 l2 : Registry F) (acc : Option (F × Nat)) :
    resolveAux tt pc it (l1 ++ l2) acc
      = resolveAux tt pc it l2 (resolveAux tt pc it l1 acc) := by
  induction l1 generalizing acc with
  | nil => rfl
  | cons reg l ih => simp [resolveAux, ih]

/-- Once the lookup holds a candidate, it never drops it. -/
theorem resolveAux_isSome {F : Type} (tt : TypeTable) (pc it : Option Value)
    (l : Registry F) (x : F × Nat) :
    (resolveAux tt pc it l (some x)).isSome = true := by
  induction l generalizing x with
  | nil => rfl
  | cons reg rest ih =>
      show (resolveAux tt pc it rest (dispatchStep tt pc it (some x) reg)).isSome = true
      cases hs : regScore tt reg pc it with
      | none => simpa [dispatchStep, hs] using ih x
      | some s =>
          by_cases hle : x.2 ≤ s <;> simp [dispatchStep, hs, hle, ih]

/-- The baseline satisfies every runtime pair at score 0. -/
theorem regScore_baseline (tt : TypeTable) (pc it : Option Value) :
    regScore tt baseline pc it = some 0 := by
  simp [baseline, regScore, specScore_unknown]

/-- Walking registrations that are either the baseline or do not satisfy the
pair keeps the baseline candidate. -/
theorem resolveAux_keep_baseline (tt : TypeTable) (c i : Value)
    (regs : Registry Factory)
    (h : ∀ reg ∈ regs,
        reg = baseline ∨ regScore tt reg (some c) (some i) = none) :
    resolveAux tt (some c) (some i) regs (some (NoGrouping, 0))
      = some (NoGrouping, 0) := by
  induction regs with
  | nil => rfl
  | cons reg rest ih =>
      have hstep : dispatchStep tt (some c) (some i) (some (NoGrouping, 0)) reg
          = some (NoGrouping, 0) := by
        rcases h reg (List.mem_cons_self _ _) with hr | hr
        · subst hr
          rfl
        · simp [dispatchStep, hr]
      show resolveAux tt (some c) (some i) rest
          (dispatchStep tt (some c) (some i) (some (NoGrouping, 0)) reg) = _
      rw [hstep]
      exact ih (fun r hm => h r (List.mem_cons_of_mem _ hm))

/-- Over registrations that are either the baseline or do not satisfy the
pair, the lookup settles on the baseline candidate as soon as the baseline is
present. -/
theorem resolveAux_fallback (tt : TypeTable) (c i : Value)
    (regs : Registry Factory) (hb : baseline ∈ regs)
    (h : ∀ reg ∈ regs,
        reg = baseline ∨ regScore tt reg (some c) (some i) = none) :
    resolveAux tt (some c) (some i) regs none = some (NoGrouping, 0) := by
  induction regs with
  | nil => exact absurd hb (List.not_mem_nil _)
  | cons reg rest ih =>
      rcases h reg (List.mem_cons_self _ _) with hr | hr
      · subst hr
        have hstep : dispatchStep tt (some c) (some i) none baseline
            = some (NoGrouping, 0) := rfl
        show resolveAux tt (some c) (some i) rest
            (dispatchStep tt (some c) (some i) none baseline) = _
        rw [hstep]
        exact resolveAux_keep_baseline tt c i rest
          (fun r hm => h r (List.mem_cons_of_mem _ hm))
      · have hstep : dispatchStep tt (some c) (some i) none reg = none := by
          simp [dispatchStep, hr]
        show resolveAux tt (some c) (some i) rest
            (dispatchStep tt (some c) (some i) none reg) = _
        rw [hstep]
        rcases List.mem_cons.mp hb with hbe | hbr
        · rw [← hbe, regScore_baseline] at hr
          exact absurd hr (by simp)
        · exact ih hbr (fun r hm => h r (List.mem_cons_of_mem _ hm))

/-- The registry of the spec's scenario seen from an unregistered container
type: the baseline plus registrations for container type 1 with the wildcard
and with contained type 2, neither of which a type-3 container satisfies. -/
def scenarioRegs : Registry Factory :=
  [baseline, ⟨.ty 1, .unknown, mkAbstractGroup id id⟩,
    ⟨.ty 1, .ty 2, mkAbstractGroup id id⟩]

/-! The claims. -/

/-- C1: for every pair of present runtime values satisfied by no registration
in the registry beyond the baseline wildcard/wildcard one — however many
registrations for other types are present — resolve returns the `NoGrouping`
factory, whose strategy answers `can_contain = false` and whose
`group`/`ungroup` leave the relationship state unchanged. -/
theorem fallback_default (tt : TypeTable) (regs : Registry Factory)
    (c i : Value) (hb : baseline ∈ regs)
    (h : ∀ reg ∈ regs,
        reg = baseline ∨ regScore tt reg (some c) (some i) = none) :
    resolve tt regs (some c) (some i) = some NoGrouping
    ∧ ∀ (p q : Option Value) (st : RelState),
        (NoGrouping p q).can_contain = false
        ∧ (NoGrouping p q).group st = st
        ∧ (NoGrouping p q).ungroup st = st := by
  refine ⟨?_, fun p q st => ⟨rfl, rfl, rfl⟩⟩
  have hres := resolveAux_fallback tt c i regs hb h
  simp [resolve, hres]

/-- Witness for C1 on the scenario registry: a type-3 container with a type-2
item matches neither type-1 registration and falls back to `NoGrouping`. -/
theorem fallback_default_w :
    (baseline ∈ scenarioRegs
      ∧ ∀ reg ∈ scenarioRegs,
          reg = baseline
          ∨ regScore ttEx reg (some ⟨3, 0⟩) (some ⟨2, 1⟩) = none)
    ∧ resolve ttEx scenarioRegs (some ⟨3, 0⟩) (some ⟨2, 1⟩)
      = some NoGrouping := by
  have hb : baseline ∈ scenarioRegs := List.mem_cons_self _ _
  have hall : ∀ reg ∈ scenarioRegs,
      reg = baseline
      ∨ regScore ttEx reg (some ⟨3, 0⟩) (some ⟨2, 1⟩) = none := by
    intro reg hm
    rcases List.mem_cons.mp hm with h1 | hm
    · exact Or.inl h1
    rcases List.mem_cons.mp hm with h2 | hm
    · exact Or.inr (by rw [h2]; decide)
    rcases List.mem_cons.mp hm with h3 | hm
    · exact Or.inr (by rw [h3]; decide)
    · exact absurd hm (List.not_mem_nil _)
  exact ⟨⟨hb, hall⟩,
    (fallback_default ttEx scenarioRegs ⟨3, 0⟩ ⟨2, 1⟩ hb hall).1⟩

/-- C9: a subclass of `AbstractGroup` that does not override `can_contain`
answers `true` for every pair it is constructed with — the opposite of the
no-match default `NoGrouping`, which answers `false`. -/
theorem default_can_contain (g u : RelState → RelState) (p q : Option Value) :
    (mkAbstractGroup g u p q).can_contain = true
    ∧ (NoGrouping p q).can_contain = false :=
  ⟨rfl, rfl⟩

/-- C7: `resolve` is a pure read of the registry state: the registrations
after a resolve call are exactly those before it, and only `register` produces
a new registry state. -/
theorem resolve_pure_read {F : Type} (tt : TypeTable) (st : Registry F)
    (pc it : Option Value) (cs isp : Specifier) (f : F) :
    (resolveS tt st pc it).2 = st
    ∧ (resolveS tt st pc it).1 = resolve tt st pc it
    ∧ (registerS st cs isp f).2 = register st cs isp f :=
  ⟨rfl, rfl, rfl⟩

/-- C3: resolution is deterministic — two resolve calls with the same registry
state and the same runtime pair return the same handler-factory. -/
theorem resolve_deterministic {F : Type} (tt : TypeTable) (regs : Registry F)
    (pc it : Option Value) (r1 r2 : Option F)
    (h1 : resolve tt regs pc it = r1) (h2 : resolve tt regs pc it = r2) :
    r1 = r2 :=
  h1.symm.trans h2

/-- Witness for C3 at a concrete registry and pair. -/
theorem resolve_deterministic_w :
    resolve ttEx [⟨.unknown, .unknown, (7 : Nat)⟩] none none = some 7
    ∧ (some 7 : Option Nat) = some 7 :=
  ⟨by decide,
    resolve_deterministic ttEx [⟨.unknown, .unknown, (7 : Nat)⟩] none none
      (some 7) (some 7) (by decide) (by decide)⟩

/-- C2: with exactly a (ContainerType, unknown) and a
(ContainerType, ConcreteContainedType) registration, resolving a concrete
container value together with an absent contained value selects the
(ContainerType, unknown) registration's factory, whichever order the two were
registered in. -/
theorem wildcard_for_absence {F : Type} (tt : TypeTable) (ct cct : TyId)
    (c : Value) (f1 f2 : F)
    (h : c.ty = ct ∨ ct ∈ tt.ancestors c.ty) :
    resolve tt [⟨.ty ct, .unknown, f1⟩, ⟨.ty ct, .ty cct, f2⟩] (some c) none
      = some f1
    ∧ resolve tt [⟨.ty ct, .ty cct, f2⟩, ⟨.ty ct, .unknown, f1⟩] (some c) none
      = some f1 := by
  by_cases hc : c.ty = ct
  · simp [resolve, resolveAux, dispatchStep, regScore, specScore, hc]
  · rcases h with h | h
    · exact absurd h hc
    · simp [resolve, resolveAux, dispatchStep, regScore, specScore, hc, h]

/-- Witness for C2: container type 1 is registered with the wildcard (factory
10) and with concrete contained type 2 (factory 20); an absent contained value
selects factory 10. -/
theorem wildcard_for_absence_w :
    ((⟨1, 0⟩ : Value).ty = 1 ∨ 1 ∈ ttEx.ancestors (⟨1, 0⟩ : Value).ty)
    ∧ resolve ttEx [⟨.ty 1, .unknown, (10 : Nat)⟩, ⟨.ty 1, .ty 2, 20⟩]
        (some ⟨1, 0⟩) none = some 10 :=
  ⟨Or.inl rfl,
    (wildcard_for_absence ttEx 1 2 ⟨1, 0⟩ 10 20 (Or.inl rfl)).1⟩

/-- C4: with registrations for (BaseType, BaseType) and (SubType, BaseType)
where SubType extends BaseType, resolving a SubType container value with a
BaseType contained value selects the (SubType, BaseType) factory, in either
registration order. -/
theorem specificity_ordering {F : Type} (tt : TypeTable) (base sub : TyId)
    (c i : Value) (f1 f2 : F)
    (hanc : base ∈ tt.ancestors sub) (hne : sub ≠ base)
    (hc : c.ty = sub) (hi : i.ty = base) :
    resolve tt [⟨.ty base, .ty base, f1⟩, ⟨.ty sub, .ty base, f2⟩]
        (some c) (some i) = some f2
    ∧ resolve tt [⟨.ty sub, .ty base, f2⟩, ⟨.ty base, .ty base, f1⟩]
        (some c) (some i) = some f2 := by
  simp [resolve, resolveAux, dispatchStep, regScore, specScore, hc, hi, hne,
    hanc]

/-- Witness for C4: type 1 extends type 0; the (1, 0) registration (factory 2)
beats the (0, 0) one (factory 1). -/
theorem specificity_ordering_w :
    (0 ∈ ttEx.ancestors 1 ∧ (1 : TyId) ≠ 0
      ∧ (⟨1, 0⟩ : Value).ty = 1 ∧ (⟨0, 1⟩ : Value).ty = 0)
    ∧ resolve ttEx [⟨.ty 0, .ty 0, (1 : Nat)⟩, ⟨.ty 1, .ty 0, 2⟩]
        (some ⟨1, 0⟩) (some ⟨0, 1⟩) = some 2 :=
  ⟨by decide,
    (specificity_ordering ttEx 0 1 ⟨1, 0⟩ ⟨0, 1⟩ 1 2 (by decide) (by decide)
      rfl rfl).1⟩

/-- Registrations filtered on the other specifier pairs survive a filter on
this pair as the empty list. -/
theorem filter_not_filter {α : Type} (p : α → Bool) (l : List α) :
    (l.filter (fun a => !(p a))).filter p = [] := by
  induction l with
  | nil => rfl
  | cons a l ih => by_cases h : p a <;> simp [h, ih]

/-- C5: registering f1 then f2 for the identical specifier pair leaves exactly
one active registration for that pair, carrying f2; resolving a pair it
matches (here, over an otherwise empty registry) returns f2, not f1. -/
theorem reregistration_replaces {F : Type} (tt : TypeTable)
    (regs : Registry F) (cs isp : Specifier) (f1 f2 : F)
    (pc it : Option Value) (s : Nat)
    (hmatch : regScore tt (⟨cs, isp, f2⟩ : Registration F) pc it = some s) :
    (register (register regs cs isp f1) cs isp f2).filter (samePair cs isp)
      = [⟨cs, isp, f2⟩]
    ∧ resolve tt (register (register [] cs isp f1) cs isp f2) pc it
      = some f2 := by
  constructor
  · simp [register, samePair, List.filter_append, filter_not_filter]
  · have hreg : register (register ([] : Registry F) cs isp f1) cs isp f2
        = [⟨cs, isp, f2⟩] := by
      simp [register, samePair]
    rw [hreg]
    simp [resolve, resolveAux, dispatchStep, hmatch]

/-- Witness for C5 at the wildcard pair over an empty registry. -/
theorem reregistration_replaces_w :
    regScore ttEx (⟨.unknown, .unknown, (2 : Nat)⟩ : Registration Nat)
        none none = some 0
    ∧ resolve ttEx
        (register (register [] .unknown .unknown (1 : Nat)) .unknown .unknown 2)
        none none = some 2 :=
  ⟨by decide,
    (reregistration_replaces ttEx [] .unknown .unknown 1 2 none none 0
      (by decide)).2⟩

/-- A step at a registration that satisfies the pair always yields a
candidate. -/
theorem dispatchStep_some {F : Type} (tt : TypeTable) (pc it : Option Value)
    (acc : Option (F × Nat)) (reg : Registration F) (s : Nat)
    (h : regScore tt reg pc it = some s) :
    ∃ y, dispatchStep tt pc it acc reg = some y := by
  cases acc with
  | none => exact ⟨(reg.factory, s), by simp [dispatchStep, h]⟩
  | some x =>
      by_cases hle : x.2 ≤ s
      · exact ⟨(reg.factory, s), by simp [dispatchStep, h, hle]⟩
      · exact ⟨x, by simp [dispatchStep, h, hle]⟩

/-- Projecting the factory out of the candidate keeps its presence. -/
theorem isSome_map_fst {F : Type} (o : Option (F × Nat)) :
    (o.map Prod.fst).isSome = o.isSome := by
  cases o <;> rfl

/-- C6: as long as the baseline wildcard/wildcard registration is present in
the registry, resolve never fails with NoHandlerFound: every runtime pair,
with either side present or absent, resolves to some factory. -/
theorem resolve_total {F : Type} (tt : TypeTable) (regs : Registry F)
    (pc it : Option Value) (f : F)
    (hb : (⟨.unknown, .unknown, f⟩ : Registration F) ∈ regs) :
    (resolve tt regs pc it).isSome = true := by
  obtain ⟨l1, l2, rfl⟩ := List.append_of_mem hb
  have hscore : regScore tt (⟨.unknown, .unknown, f⟩ : Registration F) pc it
      = some 0 := by
    simp [regScore, specScore_unknown]
  obtain ⟨y, hy⟩ :=
    dispatchStep_some tt pc it (resolveAux tt pc it l1 none) _ 0 hscore
  show ((resolveAux tt pc it (l1 ++ _ :: l2) none).map Prod.fst).isSome = true
  rw [isSome_map_fst, resolveAux_append]
  show (resolveAux tt pc it l2 (dispatchStep tt pc it _ _)).isSome = true
  rw [hy]
  exact resolveAux_isSome tt pc it l2 y

/-- Witness for C6 on the module's own registry `Group`, with both values
absent. -/
theorem resolve_total_w :
    (baseline ∈ Group) ∧ (resolve ttEx Group none none).isSome = true :=
  ⟨List.mem_cons_self _ _,
    resolve_total ttEx Group none none NoGrouping (List.mem_cons_self _ _)⟩

/-- C8: for a strategy whose `group()` establishes the containment
relationship, `ungroup()` called right after `group()` restores exactly the
relationship state from before the `group()` call (the pair starting
ungrouped, as the protocol's state machine requires), leaving no residual
references; the same holds trivially for `NoGrouping`. -/
theorem ungroup_inverse (parent item : Value) (st : RelState)
    (h : st item.vid = none) :
    (LinkGroup parent item).ungroup ((LinkGroup parent item).group st) = st
    ∧ (NoGrouping (some parent) (some item)).ungroup
        ((NoGrouping (some parent) (some item)).group st) = st := by
  constructor
  · funext k
    by_cases hk : k = item.vid
    · subst hk
      simp [LinkGroup, h]
    · simp [LinkGroup, hk]
  · rfl

/-- Witness for C8: grouping item 1 under parent 0 from the empty relationship
state and ungrouping restores the empty state. -/
theorem ungroup_inverse_w :
    ((fun _ => none : RelState) (⟨1, 1⟩ : Value).vid = none)
    ∧ (LinkGroup ⟨0, 0⟩ ⟨1, 1⟩).ungroup
        ((LinkGroup ⟨0, 0⟩ ⟨1, 1⟩).group (fun _ => none)) = (fun _ => none) :=
  ⟨rfl, (ungroup_inverse ⟨0, 0⟩ ⟨1, 1⟩ (fun _ => none) rfl).1⟩

/-- C10: the explicit `Group.register(None, object)` registration is keyed on
the parent side being absent, not the item side: every pair with an absent
parent and a present item resolves in the module registry to the `NoGrouping`
factory; the registration never matches a present parent with an absent item;
and it does match an absent parent with a present item whose type satisfies
the `object` root. -/
theorem none_parent_wildcard (tt : TypeTable) (v p : Value) :
    resolve tt Group none (some v) = some NoGrouping
    ∧ regScore tt noneParentReg (some p) none = none
    ∧ ((v.ty = tyObject ∨ tyObject ∈ tt.ancestors v.ty) →
        (regScore tt noneParentReg none (some v)).isSome = true) := by
  refine ⟨?_, ?_, ?_⟩
  · by_cases h0 : v.ty = tyObject
    · simp [Group, register, samePair, resolve, resolveAux, dispatchStep,
        regScore, specScore, h0]
    · by_cases h1 : tyObject ∈ tt.ancestors v.ty <;>
        simp [Group, register, samePair, resolve, resolveAux, dispatchStep,
          regScore, specScore, h0, h1]
  · simp [noneParentReg, regScore, specScore]
  · rintro (h | h)
    · simp [noneParentReg, regScore, specScore, h]
    · by_cases h0 : v.ty = tyObject <;>
        simp [noneParentReg, regScore, specScore, h, h0]

/-- Witness for C10: an absent parent with a present item of type 1 (which
extends the root type 0) resolves to `NoGrouping`, and the registration
matches that pair. -/
theorem none_parent_wildcard_w :
    resolve ttEx Group none (some ⟨1, 0⟩) = some NoGrouping
    ∧ ((⟨1, 0⟩ : Value).ty = tyObject
        ∨ tyObject ∈ ttEx.ancestors (⟨1, 0⟩ : Value).ty) :=
  ⟨(none_parent_wildcard ttEx ⟨1, 0⟩ ⟨0, 0⟩).1, Or.inr (by decide)⟩

end Grouping
